import Mathlib

/-!
Verification of the query-shaping / response-compaction core of a Search
Console MCP server (retry + pagination client, granularity rollup,
formatters, opportunity analyses, period comparison).

Strings from the TypeScript source are modelled as lists of characters
(`Str`); JS numbers are modelled as rationals (`ℚ`), with `Math.round`,
`toFixed` and `Math.floor` made explicit.  Remote calls are modelled by an
oracle function supplied as a parameter; `async` sequencing is modelled by
plain sequential evaluation, and thrown JS errors by `Except`.
-/

/-- Character-list model of a JS string. -/
abbrev Str := List Char

/-! ## Basic string helpers (models of JS string primitives) -/

/-- Model of `a.startsWith(b)` / prefix test, first argument is the
candidate prefix. -/
def isPrefixB : Str → Str → Bool
  | [], _ => true
  | _ :: _, [] => false
  | a :: as, b :: bs => a == b && isPrefixB as bs

/-- Model of `hay.includes(pat)` (contiguous substring test). -/
def strContains : Str → Str → Bool
  | [], pat => pat.isEmpty
  | c :: t, pat => isPrefixB pat (c :: t) || strContains t pat

/-- Model of `s.toLowerCase()` (ASCII case folding, which is all the
source's retry classifier relies on). -/
def toLowerStr (s : Str) : Str := s.map Char.toLower

/-- Spec-level statement that `pat` occurs contiguously inside `hay`. -/
def HasSub (hay pat : Str) : Prop := ∃ pre post, hay = pre ++ pat ++ post

theorem isPrefixB_iff (p h : Str) : isPrefixB p h = true ↔ ∃ t, h = p ++ t := by
  induction p generalizing h with
  | nil => simp [isPrefixB]
  | cons a as ih =>
    cases h with
    | nil => simp [isPrefixB]
    | cons b bs =>
      simp only [isPrefixB, Bool.and_eq_true, beq_iff_eq, ih, List.cons_append,
        List.cons.injEq]
      constructor
      · rintro ⟨rfl, t, rfl⟩; exact ⟨t, rfl, rfl⟩
      · rintro ⟨t, rfl, rfl⟩; exact ⟨rfl, t, rfl⟩

theorem strContains_iff (hay pat : Str) :
    strContains hay pat = true ↔ HasSub hay pat := by
  unfold HasSub
  induction hay with
  | nil =>
    simp only [strContains, List.isEmpty_iff]
    constructor
    · rintro rfl; exact ⟨[], [], rfl⟩
    · rintro ⟨pre, post, h⟩
      rcases List.append_eq_nil.mp h.symm with ⟨h1, h2⟩
      rcases List.append_eq_nil.mp h1 with ⟨-, h3⟩
      exact h3
  | cons c t ih =>
    simp only [strContains, Bool.or_eq_true, isPrefixB_iff, ih]
    constructor
    · rintro (⟨u, hu⟩ | ⟨pre, post, hp⟩)
      · exact ⟨[], u, by simpa using hu⟩
      · exact ⟨c :: pre, post, by simp [hp]⟩
    · rintro ⟨pre, post, hp⟩
      cases pre with
      | nil => exact Or.inl ⟨post, by simpa using hp⟩
      | cons x xs =>
        right
        refine ⟨xs, post, ?_⟩
        have := hp
        simp only [List.cons_append, List.cons.injEq] at this
        exact this.2

/-! ## Retryable-error classifier (src/gsc/client.ts, isRetryableError) -/

/-- Faithful translation of `GSCClient.isRetryableError`: lower-case the
message, then test for quota / rate-limit words, three transient network
error codes, and the two hard-coded server-status substrings. -/
def isRetryableError (msg : Str) : Bool :=
  let m := toLowerStr msg
  if strContains m ("quota".data) || strContains m ("rate limit".data) then true
  else if strContains m ("econnreset".data) || strContains m ("etimedout".data) ||
      strContains m ("enotfound".data) then true
  else if strContains m ("500".data) || strContains m ("503".data) then true
  else false

/-- C5 counterexample: a message carrying the 5xx status 502 is NOT
classified retryable by the code (the classifier only looks for the
substrings ("500") and ("503")), refuting "for every error whose message
carries any 5xx server status ... the failure is classified retryable". -/
theorem isRetryableError_502_counterexample :
    isRetryableError ("502 Bad Gateway".data) = false := by decide

/-- C5 (amended): `isRetryableError` classifies a failure as retryable
exactly when its lower-cased message contains one of the substrings
"quota", "rate limit", "econnreset", "etimedout", "enotfound", "500" or
"503"; 5xx statuses other than 500 and 503 (e.g. 502, 504) are not
recognised by the status test. -/
theorem isRetryableError_characterisation (msg : Str) :
    isRetryableError msg = true ↔
      (HasSub (toLowerStr msg) "quota".data ∨
        HasSub (toLowerStr msg) "rate limit".data ∨
        HasSub (toLowerStr msg) "econnreset".data ∨
        HasSub (toLowerStr msg) "etimedout".data ∨
        HasSub (toLowerStr msg) "enotfound".data ∨
        HasSub (toLowerStr msg) "500".data ∨
        HasSub (toLowerStr msg) "503".data) := by
  unfold isRetryableError
  simp only [← strContains_iff]
  split
  · next h =>
    simp only [Bool.or_eq_true] at h
    simpa using Or.imp id Or.inl h
  · next h1 =>
    simp only [Bool.or_eq_true, not_or, Bool.not_eq_true] at h1
    split
    · next h2 =>
      simp only [Bool.or_eq_true] at h2
      simp [h1.1, h1.2]
      tauto
    · next h2 =>
      simp only [Bool.or_eq_true, not_or, Bool.not_eq_true] at h2
      obtain ⟨⟨h2a, h2b⟩, h2c⟩ := h2
      split
      · next h3 =>
        simp only [Bool.or_eq_true] at h3
        simp [h1.1, h1.2, h2a, h2b, h2c]
        tauto
      · next h3 =>
        simp only [Bool.or_eq_true, not_or, Bool.not_eq_true] at h3
        simp [h1.1, h1.2, h2a, h2b, h2c, h3.1, h3.2]

/-! ## Retry wrapper (src/gsc/client.ts, withRetry) -/

def MAX_RETRIES : Nat := 3
def RETRY_DELAY_MS : Nat := 1000

/-- Observable outcome of `withRetry`: the value returned or error thrown,
the number of attempts made, and the back-off delays slept between
attempts. -/
structure RetryOutcome (α : Type) where
  result : Except Str α
  attempts : Nat
  delays : List Nat

/-- Translation of the `for (attempt = 0; attempt <= retries; ...)` loop.
The operation is modelled as a function from the attempt index to the
outcome of that attempt.  The first argument of the recursion is the
number of loop iterations still allowed after the current one
(`retries - attempt`); at `0` the current attempt is the last one and any
error is rethrown (`attempt === retries`). -/
def withRetryGo {α : Type} (op : Nat → Except Str α) (retries : Nat) :
    Nat → RetryOutcome α
  | 0 =>
    match op retries with
    | Except.ok v => ⟨Except.ok v, 1, []⟩
    | Except.error e => ⟨Except.error e, 1, []⟩
  | k + 1 =>
    let attempt := retries - (k + 1)
    match op attempt with
    | Except.ok v => ⟨Except.ok v, 1, []⟩
    | Except.error e =>
      if isRetryableError e then
        let r := withRetryGo op retries k
        ⟨r.result, r.attempts + 1, RETRY_DELAY_MS * 2 ^ attempt :: r.delays⟩
      else ⟨Except.error e, 1, []⟩

/-- Translation of `GSCClient.withRetry`; callers pass the default MAX_RETRIES. -/
def withRetry {α : Type} (op : Nat → Except Str α)
    (retries : Nat) : RetryOutcome α :=
  withRetryGo op retries retries

/-- C2: with the default budget, a persistently-retryable failure is
attempted exactly 4 times with back-off delays 1000ms, 2000ms, 4000ms, and
the error of the final attempt is thrown; a non-retryable failure on the
first attempt is thrown immediately after 1 attempt with no delay. -/
theorem withRetry_retry_schedule {α : Type} (op : Nat → Except Str α) :
    ((∀ i, ∃ e, op i = Except.error e ∧ isRetryableError e = true) →
      (withRetry op MAX_RETRIES).attempts = 4 ∧
      (withRetry op MAX_RETRIES).delays = [1000, 2000, 4000] ∧
      (withRetry op MAX_RETRIES).result = op 3) ∧
    (∀ e, op 0 = Except.error e → isRetryableError e = false →
      (withRetry op MAX_RETRIES).result = Except.error e ∧
      (withRetry op MAX_RETRIES).attempts = 1 ∧
      (withRetry op MAX_RETRIES).delays = []) := by
  constructor
  · intro h
    obtain ⟨e0, h0, r0⟩ := h 0
    obtain ⟨e1, h1, r1⟩ := h 1
    obtain ⟨e2, h2, r2⟩ := h 2
    obtain ⟨e3, h3, r3⟩ := h 3
    simp [withRetry, MAX_RETRIES, withRetryGo, RETRY_DELAY_MS,
      h0, h1, h2, h3, r0, r1, r2, r3]
  · intro e h0 hnr
    simp [withRetry, MAX_RETRIES, withRetryGo, h0, hnr]

/-- C2 witness: a concrete always-failing retryable operation makes 4
attempts with delays 1s/2s/4s and rethrows the final error. -/
theorem withRetry_retry_schedule_witness :
    (withRetry (fun _ => (Except.error ("quota exceeded".data) : Except Str Unit))
        MAX_RETRIES).attempts = 4 ∧
    (withRetry (fun _ => (Except.error ("quota exceeded".data) : Except Str Unit))
        MAX_RETRIES).delays = [1000, 2000, 4000] ∧
    (withRetry (fun _ => (Except.error ("quota exceeded".data) : Except Str Unit))
        MAX_RETRIES).result =
      (fun _ => (Except.error ("quota exceeded".data) : Except Str Unit)) 3 :=
  (withRetry_retry_schedule (fun _ => Except.error ("quota exceeded".data))).1
    (fun _ => ⟨"quota exceeded".data, rfl, by decide⟩)

/-! ## Error-swallowing single-entity getters
(src/gsc/client.ts, getSite / getSitemap) -/

/-- Raw remote payload for `sites.get` (optional wire fields). -/
structure SiteData where
  siteUrl : Option Str
  permissionLevel : Option Str

structure SiteInfo where
  siteUrl : Str
  permissionLevel : Str

/-- JS `optionalField || fallback` on a string field: absent or empty
string falls back. -/
def orElseStr (a : Option Str) (b : Str) : Str :=
  match a with
  | some s => if s = [] then b else s
  | none => b

/-- JS `optionalField || undefined` on a string field. -/
def orUndef (a : Option Str) : Option Str :=
  match a with
  | some s => if s = [] then none else some s
  | none => none

/-- JS `optionalField || undefined` on a boolean field (`false` is falsy). -/
def orUndefB (a : Option Bool) : Option Bool :=
  match a with
  | some b => if b then some true else none
  | none => none

/-- JS `Number(s)` restricted to the decimal digit strings the service
returns for sitemap warning/error counts. -/
def strToNat (s : Str) : Nat := s.foldl (fun acc c => acc * 10 + (c.toNat - 48)) 0

/-- JS `field ? Number(field) : undefined`. -/
def numField (a : Option Str) : Option Nat :=
  match a with
  | some s => if s = [] then none else some (strToNat s)
  | none => none

/-- Translation of `GSCClient.getSite`: the retried remote call is wrapped
in `try { ... } catch { return null; }`. -/
def getSite (op : Nat → Except Str SiteData) (siteUrl : Str) : Option SiteInfo :=
  match (withRetry op MAX_RETRIES).result with
  | Except.ok d =>
    some ⟨orElseStr d.siteUrl siteUrl, orElseStr d.permissionLevel ("unknown".data)⟩
  | Except.error _ => none

/-- Raw remote payload for `sitemaps.get`. -/
structure SitemapData where
  path : Option Str
  lastSubmitted : Option Str
  isPending : Option Bool
  isSitemapsIndex : Option Bool
  type : Option Str
  lastDownloaded : Option Str
  warnings : Option Str
  errors : Option Str

structure SitemapInfo where
  path : Str
  lastSubmitted : Option Str
  isPending : Option Bool
  isSitemapsIndex : Option Bool
  type : Option Str
  lastDownloaded : Option Str
  warnings : Option Nat
  errors : Option Nat

/-- Translation of `GSCClient.getSitemap` (same catch-all shape). -/
def getSitemap (op : Nat → Except Str SitemapData) (feedpath : Str) :
    Option SitemapInfo :=
  match (withRetry op MAX_RETRIES).result with
  | Except.ok d =>
    some ⟨orElseStr d.path feedpath, orUndef d.lastSubmitted,
      orUndefB d.isPending, orUndefB d.isSitemapsIndex, orUndef d.type,
      orUndef d.lastDownloaded, numField d.warnings, numField d.errors⟩
  | Except.error _ => none

/-- C10: `getSite` and `getSitemap` return an absent result exactly when
the retried remote call fails — every failure (retryable-after-exhaustion
or not) is swallowed into `none`, and success always yields `some`, so no
error of these operations propagates and a caller cannot tell a missing
entity from a failed request. -/
theorem getSite_getSitemap_swallow_errors
    (op1 : Nat → Except Str SiteData) (op2 : Nat → Except Str SitemapData)
    (siteUrl feedpath : Str) :
    ((getSite op1 siteUrl).isSome = (withRetry op1 MAX_RETRIES).result.isOk) ∧
    ((getSitemap op2 feedpath).isSome = (withRetry op2 MAX_RETRIES).result.isOk) ∧
    (∀ e, (withRetry op1 MAX_RETRIES).result = Except.error e →
      getSite op1 siteUrl = none) ∧
    (∀ e, (withRetry op2 MAX_RETRIES).result = Except.error e →
      getSitemap op2 feedpath = none) := by
  refine ⟨?_, ?_, ?_, ?_⟩
  · unfold getSite
    cases (withRetry op1 MAX_RETRIES).result <;>
      simp [Except.isOk, Except.toBool]
  · unfold getSitemap
    cases (withRetry op2 MAX_RETRIES).result <;>
      simp [Except.isOk, Except.toBool]
  · intro e he; unfold getSite; rw [he]
  · intro e he; unfold getSitemap; rw [he]

/-- C10 witness: a remote call that always fails with an auth error makes
both getters return `none`. -/
theorem getSite_getSitemap_swallow_errors_witness :
    getSite (fun _ => Except.error ("401 unauthorized".data)) [] = none ∧
    getSitemap (fun _ => Except.error ("401 unauthorized".data)) [] = none :=
  ⟨(getSite_getSitemap_swallow_errors (fun _ => Except.error ("401 unauthorized".data))
      (fun _ => Except.error ("401 unauthorized".data)) [] []).2.2.1
      "401 unauthorized".data rfl,
   (getSite_getSitemap_swallow_errors (fun _ => Except.error ("401 unauthorized".data))
      (fun _ => Except.error ("401 unauthorized".data)) [] []).2.2.2
      "401 unauthorized".data rfl⟩

/-! ## Search-analytics pagination
(src/gsc/client.ts, searchAnalytics / searchAnalyticsPaginated) -/

def MAX_ROWS_PER_REQUEST : Nat := 25000

/-- Analytics row (src/types.ts `SearchAnalyticsRow`): numeric fields are
JS numbers modelled as rationals, `keys` the optional dimension values
(`[]` models an absent/empty key list). -/
structure SARow where
  keys : List Str
  clicks : ℚ
  impressions : ℚ
  ctr : ℚ
  position : ℚ
deriving DecidableEq

/-- Parameters of one underlying `searchanalytics.query` RPC. -/
structure CallRecord where
  startRow : Nat
  rowLimit : Nat
deriving DecidableEq

/-- Translation of the `while (allRows.length < totalRowsRequested)` loop
of `searchAnalyticsPaginated`.  `service s n` is the row list the remote
service returns for a single call with `startRow = s`, `rowLimit = n`.
Besides the accumulated rows, the trace of issued calls is returned.
The loop always terminates because every iteration that continues appends
at least one row; `fuel = totalRowsRequested` therefore always suffices
and the `fuel = 0` base case is unreachable from `searchAnalytics`. -/
def searchAnalyticsPaginatedGo (service : Nat → Nat → List SARow) (total : Nat) :
    Nat → List SARow → Nat → List SARow × List CallRecord
  | 0, acc, _ => (acc, [])
  | fuel + 1, acc, startRow =>
    if acc.length < total then
      let rowsToFetch := min MAX_ROWS_PER_REQUEST (total - acc.length)
      let resp := service startRow rowsToFetch
      if resp.length = 0 then (acc, [⟨startRow, rowsToFetch⟩])
      else if resp.length < rowsToFetch then (acc ++ resp, [⟨startRow, rowsToFetch⟩])
      else
        let r := searchAnalyticsPaginatedGo service total fuel (acc ++ resp)
          (startRow + rowsToFetch)
        (r.1, ⟨startRow, rowsToFetch⟩ :: r.2)
    else (acc, [])

/-- The function `searchAnalyticsPaginated` is entered with `rowLimit > 25000`, so
`totalRowsRequested = query.rowLimit || MAX_ROWS_PER_REQUEST` is just
`rowLimit`, and accumulation starts from the query's own `startRow`. -/
def searchAnalyticsPaginated (service : Nat → Nat → List SARow)
    (rowLimit startRow : Nat) : List SARow × List CallRecord :=
  searchAnalyticsPaginatedGo service rowLimit rowLimit [] startRow

/-- Translation of `GSCClient.searchAnalytics`: one direct call unless the
requested `rowLimit` exceeds the per-call service maximum. -/
def searchAnalytics (service : Nat → Nat → List SARow)
    (rowLimit startRow : Nat) : List SARow × List CallRecord :=
  if MAX_ROWS_PER_REQUEST < rowLimit then
    searchAnalyticsPaginated service rowLimit startRow
  else (service startRow rowLimit, [⟨startRow, rowLimit⟩])

theorem paginatedGo_calls_bounded (service : Nat → Nat → List SARow)
    (total : Nat) : ∀ fuel acc startRow c,
    c ∈ (searchAnalyticsPaginatedGo service total fuel acc startRow).2 →
    0 < c.rowLimit ∧ c.rowLimit ≤ MAX_ROWS_PER_REQUEST := by
  intro fuel
  induction fuel with
  | zero => intro acc s c hc; simp [searchAnalyticsPaginatedGo] at hc
  | succ fuel ih =>
    intro acc s c hc
    simp only [searchAnalyticsPaginatedGo] at hc
    split at hc
    · next hlt =>
      split at hc
      · simp at hc
        subst hc
        constructor <;> simp [MAX_ROWS_PER_REQUEST] <;> omega
      · split at hc
        · simp at hc
          subst hc
          constructor <;> simp [MAX_ROWS_PER_REQUEST] <;> omega
        · simp only [List.mem_cons] at hc
          rcases hc with rfl | hc
          · constructor <;> simp [MAX_ROWS_PER_REQUEST] <;> omega
          · exact ih _ _ _ hc
    · simp at hc

theorem paginatedGo_chain (service : Nat → Nat → List SARow)
    (total : Nat) : ∀ fuel acc startRow,
    (∀ c, (searchAnalyticsPaginatedGo service total fuel acc startRow).2.head? =
      some c → c = ⟨startRow, min MAX_ROWS_PER_REQUEST (total - acc.length)⟩) ∧
    List.Chain'
      (fun a b => b.startRow = a.startRow + a.rowLimit ∧ a.startRow < b.startRow)
      (searchAnalyticsPaginatedGo service total fuel acc startRow).2 := by
  intro fuel
  induction fuel with
  | zero => intro acc s; simp [searchAnalyticsPaginatedGo]
  | succ fuel ih =>
    intro acc s
    simp only [searchAnalyticsPaginatedGo]
    split
    · next hlt =>
      split
      · simp
      · split
        · simp
        · next hz hge =>
          refine ⟨by simp, ?_⟩
          rw [List.chain'_cons']
          refine ⟨?_, (ih _ _).2⟩
          intro y hy
          have := (ih (acc ++ service s (min MAX_ROWS_PER_REQUEST (total - acc.length)))
            (s + min MAX_ROWS_PER_REQUEST (total - acc.length))).1 y hy
          subst this
          have hpos : 0 < min MAX_ROWS_PER_REQUEST (total - acc.length) := by
            simp [MAX_ROWS_PER_REQUEST]; omega
          refine ⟨rfl, ?_⟩
          show s < s + min MAX_ROWS_PER_REQUEST (total - acc.length)
          omega
    · simp

theorem paginatedGo_stops_early (service : Nat → Nat → List SARow)
    (total : Nat) : ∀ fuel acc startRow pre c post,
    (searchAnalyticsPaginatedGo service total fuel acc startRow).2 =
      pre ++ c :: post → post ≠ [] →
    c.rowLimit ≤ (service c.startRow c.rowLimit).length := by
  intro fuel
  induction fuel with
  | zero =>
    intro acc s pre c post h _
    simp only [searchAnalyticsPaginatedGo] at h
    exact absurd (List.append_eq_nil.mp h.symm).2 (List.cons_ne_nil c post)
  | succ fuel ih =>
    intro acc s pre c post h hpost
    simp only [searchAnalyticsPaginatedGo] at h
    split at h
    · next hlt =>
      split at h
      · have := congrArg List.length h
        have hp := List.length_pos.mpr hpost
        simp at this
        omega
      · split at h
        · next hz hle =>
          have := congrArg List.length h
          have hp := List.length_pos.mpr hpost
          simp at this
          omega
        · next hz hge =>
          simp only at h
          cases pre with
          | nil =>
            simp only [List.nil_append, List.cons.injEq] at h
            obtain ⟨rfl, -⟩ := h
            simp only [not_lt] at hge
            exact hge
          | cons p pre' =>
            simp only [List.cons_append, List.cons.injEq] at h
            exact ih _ _ pre' c post h.2 hpost
    · have := congrArg List.length h
      have hp := List.length_pos.mpr hpost
      simp at this
      omega

theorem paginatedGo_ne_nil (service : Nat → Nat → List SARow)
    (total fuel : Nat) (acc : List SARow) (startRow : Nat)
    (hf : 0 < fuel) (hlt : acc.length < total) :
    (searchAnalyticsPaginatedGo service total fuel acc startRow).2 ≠ [] := by
  cases fuel with
  | zero => omega
  | succ fuel =>
    simp only [searchAnalyticsPaginatedGo, if_pos hlt]
    split
    · simp
    · split <;> simp

theorem paginatedGo_call_count (service : Nat → Nat → List SARow)
    (total : Nat) (hlen : ∀ s n, (service s n).length = n) :
    ∀ fuel acc startRow, acc.length < total → total - acc.length ≤ fuel →
    (searchAnalyticsPaginatedGo service total fuel acc startRow).2.length =
      (total - acc.length + MAX_ROWS_PER_REQUEST - 1) / MAX_ROWS_PER_REQUEST := by
  intro fuel
  induction fuel with
  | zero => intro acc s hlt hfuel; omega
  | succ fuel ih =>
    intro acc s hlt hfuel
    have hM : 0 < MAX_ROWS_PER_REQUEST := by simp [MAX_ROWS_PER_REQUEST]
    simp only [searchAnalyticsPaginatedGo, if_pos hlt]
    have hf : 0 < min MAX_ROWS_PER_REQUEST (total - acc.length) := by omega
    rw [if_neg (by rw [hlen]; omega), if_neg (by rw [hlen]; omega), List.length_cons]
    by_cases hcase : total - acc.length ≤ MAX_ROWS_PER_REQUEST
    · have hlen2 : (acc ++ service s (min MAX_ROWS_PER_REQUEST (total - acc.length))).length
          = total := by
        simp [hlen]; omega
      have hdone : (searchAnalyticsPaginatedGo service total fuel
          (acc ++ service s (min MAX_ROWS_PER_REQUEST (total - acc.length)))
          (s + min MAX_ROWS_PER_REQUEST (total - acc.length))).2 = [] := by
        cases fuel with
        | zero => simp [searchAnalyticsPaginatedGo]
        | succ fuel => simp [searchAnalyticsPaginatedGo, hlen2]
      rw [hdone]
      simp only [List.length_nil, MAX_ROWS_PER_REQUEST] at hcase hf ⊢
      omega
    · have hlen2 : (acc ++ service s (min MAX_ROWS_PER_REQUEST (total - acc.length))).length
          = acc.length + MAX_ROWS_PER_REQUEST := by
        simp [hlen]; omega
      rw [ih _ _ (by omega) (by omega), hlen2]
      simp only [MAX_ROWS_PER_REQUEST] at hcase hf ⊢
      omega

/-- C1: the trace of underlying calls issued by `searchAnalytics`.  For
`rowLimit ≤ 25000` exactly one call is issued, with the descriptor's own
offset and limit.  In general no call ever requests more than 25000 rows,
the first call starts at the descriptor's `startRow`, consecutive calls
advance `startRow` by exactly the previous call's (positive) row count —
hence offsets are strictly increasing — and every call except the last
returned at least as many rows as requested (so the loop stops as soon as
a call comes back short or empty).  When every call returns exactly the
requested number of rows and `rowLimit > 25000`, exactly
`⌈rowLimit / 25000⌉` calls are issued. -/
theorem searchAnalytics_pagination (service : Nat → Nat → List SARow)
    (rowLimit startRow : Nat) (hpos : 0 < rowLimit) :
    (rowLimit ≤ MAX_ROWS_PER_REQUEST →
      (searchAnalytics service rowLimit startRow).2 = [⟨startRow, rowLimit⟩]) ∧
    (∀ c ∈ (searchAnalytics service rowLimit startRow).2,
      c.rowLimit ≤ MAX_ROWS_PER_REQUEST) ∧
    ((searchAnalytics service rowLimit startRow).2.head? =
      some ⟨startRow, min MAX_ROWS_PER_REQUEST rowLimit⟩) ∧
    List.Chain'
      (fun a b => b.startRow = a.startRow + a.rowLimit ∧ a.startRow < b.startRow)
      (searchAnalytics service rowLimit startRow).2 ∧
    (∀ pre c post,
      (searchAnalytics service rowLimit startRow).2 = pre ++ c :: post →
      post ≠ [] → c.rowLimit ≤ (service c.startRow c.rowLimit).length) ∧
    ((∀ s n, (service s n).length = n) → MAX_ROWS_PER_REQUEST < rowLimit →
      (searchAnalytics service rowLimit startRow).2.length =
        (rowLimit + MAX_ROWS_PER_REQUEST - 1) / MAX_ROWS_PER_REQUEST) := by
  unfold searchAnalytics
  by_cases hbig : MAX_ROWS_PER_REQUEST < rowLimit
  · rw [if_pos hbig]
    unfold searchAnalyticsPaginated
    refine ⟨by omega, ?_, ?_, ?_, ?_, ?_⟩
    · intro c hc
      exact (paginatedGo_calls_bounded service rowLimit _ _ _ c hc).2
    · have hne := paginatedGo_ne_nil service rowLimit rowLimit [] startRow
        (by omega) (by simpa using hpos)
      rcases hh : (searchAnalyticsPaginatedGo service rowLimit rowLimit [] startRow).2
        with - | ⟨c, rest⟩
      · exact absurd hh hne
      · have := (paginatedGo_chain service rowLimit rowLimit [] startRow).1 c
          (by rw [hh]; rfl)
        subst this
        simp
    · exact (paginatedGo_chain service rowLimit rowLimit [] startRow).2
    · intro pre c post h hp
      exact paginatedGo_stops_early service rowLimit rowLimit [] startRow pre c post h hp
    · intro hlen _
      have := paginatedGo_call_count service rowLimit hlen rowLimit [] startRow
        (by simpa using hpos) (by simp)
      simpa using this
  · rw [if_neg hbig]
    refine ⟨fun _ => rfl, ?_, ?_, ?_, ?_, ?_⟩
    · intro c hc
      simp at hc
      subst hc
      show rowLimit ≤ MAX_ROWS_PER_REQUEST
      omega
    · simp
      omega
    · simp
    · intro pre c post h hp
      have := congrArg List.length h
      have hq := List.length_pos.mpr hp
      simp at this
      omega
    · intro _ h
      omega

/-- C1 witness: a one-page request issues exactly the single expected
call. -/
theorem searchAnalytics_pagination_witness :
    (searchAnalytics (fun _ n => List.replicate n ⟨[], 0, 0, 0, 0⟩) 1 0).2 =
      [⟨0, 1⟩] :=
  (searchAnalytics_pagination (fun _ n => List.replicate n ⟨[], 0, 0, 0, 0⟩)
    1 0 (by decide)).1 (by decide)

/-! ## Numeric rounding helpers (JS `Math.round`, `toFixed`) -/

/-- JS `Math.round`: nearest integer, ties toward +∞. -/
def jsRound (q : ℚ) : Int := ⌊q + 1 / 2⌋

/-- Model of `formatPosition` (src/server/tools/formatters.ts):
`Math.round(position * 10) / 10`. -/
def formatPosition (q : ℚ) : ℚ := (jsRound (q * 10) : ℚ) / 10

/-- Model of `formatCtr` in full mode (src/server/tools/formatters.ts):
`Math.round(ctr * 10000) / 10000`. -/
def formatCtr (q : ℚ) : ℚ := (jsRound (q * 10000) : ℚ) / 10000

/-! ## Decimal rendering of naturals (model of JS number→string) -/

def digitOf (n : Nat) : Char := Char.ofNat (48 + n)

def natCharsGo : Nat → Nat → List Char
  | 0, _ => []
  | fuel + 1, n =>
    if n < 10 then [digitOf n]
    else natCharsGo fuel (n / 10) ++ [digitOf (n % 10)]

/-- Decimal digits of a natural number (the `fuel = n + 1` always
suffices since the value shrinks by a factor 10 each step). -/
def natChars (n : Nat) : Str := natCharsGo (n + 1) n

/-- Model of `String(...).padStart(k, '0')`. -/
def padZeros (k : Nat) (s : Str) : Str := List.replicate (k - s.length) '0' ++ s

/-! ## Civil-date arithmetic (model of the UTC `Date` operations used by
the rollup: parsing `YYYY-MM-DD`, `getDay`, `setDate`, `toISOString`).
Dates are identified with their day count since 1970-01-01; the
conversions are the standard era-based civil-date algorithms. -/

def daysFromCivil (y m d : Int) : Int :=
  let y2 := if m ≤ 2 then y - 1 else y
  let era := (if 0 ≤ y2 then y2 else y2 - 399) / 400
  let yoe := y2 - era * 400
  let mp := (m + 9) % 12
  let doy := (153 * mp + 2) / 5 + d - 1
  let doe := yoe * 365 + yoe / 4 - yoe / 100 + doy
  era * 146097 + doe - 719468

def civilFromDays (z0 : Int) : Int × Int × Int :=
  let z := z0 + 719468
  let era := (if 0 ≤ z then z else z - 146096) / 146097
  let doe := z - era * 146097
  let yoe := (doe - doe / 1460 + doe / 36524 - doe / 146096) / 365
  let doy := doe - (365 * yoe + yoe / 4 - yoe / 100)
  let mp := (5 * doy + 2) / 153
  let d := doy - (153 * mp + 2) / 5 + 1
  let m := if mp < 10 then mp + 3 else mp - 9
  (if m ≤ 2 then yoe + era * 400 + 1 else yoe + era * 400, m, d)

def digitValC (c : Char) : Nat := c.toNat - 48

/-- Parse a strict `YYYY-MM-DD` string (the format the remote service and
the tools exchange; `new Date(s)` parses it as UTC midnight). -/
def parseDate : Str → Option (Int × Int × Int)
  | [y1, y2, y3, y4, s1, mo1, mo2, s2, d1, d2] =>
    if (y1.isDigit && y2.isDigit && y3.isDigit && y4.isDigit &&
        mo1.isDigit && mo2.isDigit && d1.isDigit && d2.isDigit) &&
        s1 == '-' && s2 == '-' then
      some ((1000 * digitValC y1 + 100 * digitValC y2 + 10 * digitValC y3 +
          digitValC y4 : Nat),
        (10 * digitValC mo1 + digitValC mo2 : Nat),
        (10 * digitValC d1 + digitValC d2 : Nat))
    else none
  | _ => none

/-- Model of `date.toISOString().split('T')[0]` for a day count (years 0–9999). -/
def fmtDays (z : Int) : Str :=
  let c := civilFromDays z
  padZeros 4 (natChars c.1.toNat) ++ '-' :: padZeros 2 (natChars c.2.1.toNat) ++
    '-' :: padZeros 2 (natChars c.2.2.toNat)

/-- Monthly bucket key: `` `${getFullYear()}-${String(getMonth()+1).padStart(2,'0')}` ``. -/
def fmtYM (y m : Int) : Str :=
  natChars y.toNat ++ '-' :: padZeros 2 (natChars m.toNat)

/-- Model of `monday.setDate(date.getDate() - date.getDay() + 1)`: shift the date
by `1 - getDay()` days, where `getDay()` is `(z + 4) % 7` (0 = Sunday). -/
def weeklyBucketDay (z : Int) : Int := z + 1 - (z + 4) % 7

inductive Granularity
  | daily
  | weekly
  | monthly
  | auto
deriving DecidableEq

/-- Bucket key computation of `rollupByGranularity` for one row date
string (src/server/tools/searchAnalytics.ts).  The source computes
`YYYY-MM` for monthly and otherwise the ISO day string of the
`setDate`-shifted ("Monday").  (On an unparsable string the JS code would
build a NaN-filled key; all claims concern well-formed date keys.) -/
def bucketKey (g : Granularity) (s : Str) : Str :=
  match parseDate s with
  | none => "Invalid Date".data
  | some (y, m, d) =>
    match g with
    | Granularity.monthly => fmtYM y m
    | _ => fmtDays (weeklyBucketDay (daysFromCivil y m d))

/-- Spec-side notion: the Monday (day-of-week 1) on or before day `z`. -/
def mondayOnOrBefore (z : Int) : Int := z - (z - 4) % 7

/-- C3 counterexample: 2024-01-07 is a Sunday, and the weekly rollup
buckets it under ("2024-01-08") — the Monday *after* it — not under
"2024-01-01", the Monday six days earlier required by the claim
(`getDay()` is 0 on Sundays, so `date - getDay() + 1` lands on the next
day). -/
theorem weekly_bucket_sunday_counterexample :
    bucketKey Granularity.weekly ("2024-01-07".data) = "2024-01-08".data ∧
    "2024-01-08".data ≠ "2024-01-01".data := by decide

/-- C3 (amended): for a row whose first key parses as the date `(y,m,d)`
with day number `z`, the weekly bucket key is the ISO date of
`z + 1 - getDay(z)`.  For Monday–Saturday rows (`getDay ≠ 0`) this is
exactly the Monday on or before the date (the unique day-of-week-1 day
`M` with `M ≤ z < M + 7`), but a Sunday row (`getDay = 0`) is bucketed
under `z + 1`, the *following* Monday, one day later — not the Monday six
days earlier. -/
theorem weekly_bucket_key_characterisation (s : Str) (y m d : Int)
    (hp : parseDate s = some (y, m, d)) :
    bucketKey Granularity.weekly s =
      fmtDays (weeklyBucketDay (daysFromCivil y m d)) ∧
    ((daysFromCivil y m d + 4) % 7 ≠ 0 →
      weeklyBucketDay (daysFromCivil y m d) =
        mondayOnOrBefore (daysFromCivil y m d)) ∧
    ((daysFromCivil y m d + 4) % 7 = 0 →
      weeklyBucketDay (daysFromCivil y m d) = daysFromCivil y m d + 1) ∧
    mondayOnOrBefore (daysFromCivil y m d) ≤ daysFromCivil y m d ∧
    daysFromCivil y m d < mondayOnOrBefore (daysFromCivil y m d) + 7 ∧
    (mondayOnOrBefore (daysFromCivil y m d) + 4) % 7 = 1 := by
  refine ⟨by simp [bucketKey, hp], ?_, ?_, ?_, ?_, ?_⟩ <;>
    · simp only [weeklyBucketDay, mondayOnOrBefore]
      omega

/-- C3 witness: the characterisation applied to the concrete date
2024-01-03. -/
theorem weekly_bucket_key_characterisation_witness :
    bucketKey Granularity.weekly ("2024-01-03".data) =
      fmtDays (weeklyBucketDay (daysFromCivil 2024 1 3)) :=
  (weekly_bucket_key_characterisation ("2024-01-03".data) 2024 1 3 (by decide)).1

/-! ## Insertion-ordered string-keyed map (model of a JS `Map`) -/

def alookup {β : Type} (k : Str) : List (Str × β) → Option β
  | [] => none
  | (k', b) :: t => if k' = k then some b else alookup k t

/-- Model of `map.get(k)`-then-update / `map.set(k, ...)`: update the entry in
place if the key is present, else append a fresh entry at the end
(JS `Map` preserves insertion order). -/
def mapUpsert {β : Type} (k : Str) (f : Option β → β) :
    List (Str × β) → List (Str × β)
  | [] => [(k, f none)]
  | (k', b) :: t =>
    if k' = k then (k', f (some b)) :: t else (k', b) :: mapUpsert k f t

theorem alookup_upsert_self {β : Type} (k : Str) (f : Option β → β)
    (bs : List (Str × β)) :
    alookup k (mapUpsert k f bs) = some (f (alookup k bs)) := by
  induction bs with
  | nil => simp [alookup, mapUpsert]
  | cons p t ih =>
    obtain ⟨k', b⟩ := p
    by_cases h : k' = k
    · subst h; simp [alookup, mapUpsert]
    · simp [alookup, mapUpsert, h, ih]

theorem alookup_upsert_ne {β : Type} {k k' : Str} (h : k' ≠ k)
    (f : Option β → β) (bs : List (Str × β)) :
    alookup k' (mapUpsert k f bs) = alookup k' bs := by
  induction bs with
  | nil =>
    simp only [mapUpsert, alookup]
    rw [if_neg (fun hk => h hk.symm)]
  | cons p t ih =>
    obtain ⟨k0, b⟩ := p
    by_cases h0 : k0 = k
    · subst h0
      simp only [mapUpsert, if_pos rfl, alookup]
      rw [if_neg (fun hk => h hk.symm), if_neg (fun hk => h hk.symm)]
    · by_cases h1 : k0 = k'
      · subst h1; simp [alookup, mapUpsert, h0]
      · simp [alookup, mapUpsert, h0, h1, ih]

theorem mapUpsert_keys {β : Type} (k : Str) (f : Option β → β)
    (bs : List (Str × β)) :
    (mapUpsert k f bs).map Prod.fst =
      if k ∈ bs.map Prod.fst then bs.map Prod.fst
      else bs.map Prod.fst ++ [k] := by
  induction bs with
  | nil =>
    simp only [mapUpsert, List.map_cons, List.map_nil]
    rw [if_neg (List.not_mem_nil k)]
    simp
  | cons p t ih =>
    obtain ⟨k0, b⟩ := p
    by_cases h0 : k0 = k
    · subst h0
      simp only [List.map_cons]
      rw [if_pos (List.mem_cons_self _ _)]
      simp only [mapUpsert, eq_self_iff_true, if_true, List.map_cons]
    · simp only [mapUpsert, if_neg h0, List.map_cons, List.mem_cons, ih]
      by_cases hmem : k ∈ t.map Prod.fst
      · simp [hmem, h0]
      · have hni : ¬ (k = k0 ∨ k ∈ t.map Prod.fst) := by
          rintro (hh | hh)
          · exact h0 hh.symm
          · exact hmem hh
        rw [if_neg hmem, if_neg hni]
        simp

theorem mapUpsert_keys_nodup {β : Type} (k : Str) (f : Option β → β)
    (bs : List (Str × β)) (h : (bs.map Prod.fst).Nodup) :
    ((mapUpsert k f bs).map Prod.fst).Nodup := by
  rw [mapUpsert_keys]
  split
  · exact h
  · next hmem => simpa [List.nodup_append, hmem] using h

theorem mem_of_alookup {β : Type} {k : Str} {b : β} {bs : List (Str × β)}
    (h : alookup k bs = some b) : (k, b) ∈ bs := by
  induction bs with
  | nil => simp [alookup] at h
  | cons p t ih =>
    obtain ⟨k0, b0⟩ := p
    by_cases h0 : k0 = k
    · subst h0
      simp [alookup] at h
      subst h
      exact List.mem_cons_self _ _
    · simp only [alookup, if_neg h0] at h
      exact List.mem_cons_of_mem _ (ih h)

theorem alookup_of_mem_nodup {β : Type} {k : Str} {b : β} {bs : List (Str × β)}
    (hnd : (bs.map Prod.fst).Nodup) (h : (k, b) ∈ bs) :
    alookup k bs = some b := by
  induction bs with
  | nil => simp at h
  | cons p t ih =>
    obtain ⟨k0, b0⟩ := p
    simp only [List.map_cons, List.nodup_cons] at hnd
    rcases List.mem_cons.mp h with heq | hmem
    · obtain ⟨rfl, rfl⟩ := Prod.mk.injEq .. ▸ (Prod.ext_iff.mp heq)
      simp [alookup]
    · have hk0 : k0 ≠ k := by
        rintro rfl
        exact hnd.1 (List.mem_map.mpr ⟨(k0, b), hmem, rfl⟩)
      simp only [alookup, if_neg hk0]
      exact ih hnd.2 hmem

/-- Grouping loop shared by the rollup (per-date buckets) and the
cannibalization analysis (per-query page lists): walk the rows, skip rows
without a key, and upsert each remaining row into the insertion-ordered
map. -/
def mapFold {β : Type} (keyOf : SARow → Option Str)
    (upd : Option β → SARow → β) (rows : List SARow) : List (Str × β) :=
  rows.foldl
    (fun bs r =>
      match keyOf r with
      | none => bs
      | some k => mapUpsert k (fun o => upd o r) bs) []

theorem alookup_mapFold_gen {β : Type} (keyOf : SARow → Option Str)
    (upd : Option β → SARow → β) (rows : List SARow) :
    ∀ (bs : List (Str × β)) (k : Str),
    alookup k (rows.foldl
      (fun bs r =>
        match keyOf r with
        | none => bs
        | some k' => mapUpsert k' (fun o => upd o r) bs) bs) =
    rows.foldl
      (fun acc r => if keyOf r = some k then some (upd acc r) else acc)
      (alookup k bs) := by
  induction rows with
  | nil => intro bs k; simp
  | cons r t ih =>
    intro bs k
    simp only [List.foldl_cons]
    rcases hk : keyOf r with - | k0 <;> simp only [hk]
    · simp [ih]
    · by_cases he : k0 = k
      · subst he
        rw [ih, if_pos rfl, alookup_upsert_self]
      · rw [ih, if_neg (by simp [he]), alookup_upsert_ne (fun hh => he hh.symm)]

theorem mapFold_keys_nodup {β : Type} (keyOf : SARow → Option Str)
    (upd : Option β → SARow → β) (rows : List SARow) :
    ((mapFold keyOf upd rows).map Prod.fst).Nodup := by
  unfold mapFold
  suffices h : ∀ bs : List (Str × β), (bs.map Prod.fst).Nodup →
      ((rows.foldl
        (fun bs r =>
          match keyOf r with
          | none => bs
          | some k => mapUpsert k (fun o => upd o r) bs) bs).map Prod.fst).Nodup by
    exact h [] (by simp)
  induction rows with
  | nil => intro bs h; simpa using h
  | cons r t ih =>
    intro bs h
    simp only [List.foldl_cons]
    rcases hk : keyOf r with - | k0
    · exact ih bs h
    · exact ih _ (mapUpsert_keys_nodup k0 _ bs h)

theorem foldl_if_filter {β : Type} (Q : SARow → Prop) [DecidablePred Q]
    (g : β → SARow → β) (l : List SARow) :
    ∀ init : β,
    l.foldl (fun acc r => if Q r then g acc r else acc) init =
      (l.filter (fun r => decide (Q r))).foldl g init := by
  induction l with
  | nil => intro init; simp
  | cons r t ih =>
    intro init
    by_cases h : Q r
    · simp [h, ih]
    · simp [h, ih]

/-! ## Granularity rollup
(src/server/tools/searchAnalytics.ts, rollupByGranularity) -/

/-- Per-bucket accumulator of the rollup loop. -/
structure BucketAcc where
  clicks : ℚ
  impressions : ℚ
  positions : List ℚ
  dates : List Str
deriving DecidableEq

/-- Model of `const dateStr = row.keys?.[0]; if (!dateStr) continue;` — the first
dimension key, with both an absent key list and an empty first key
treated as missing. -/
def firstKey (r : SARow) : Option Str :=
  match r.keys with
  | [] => none
  | k :: _ => if k = [] then none else some k

def bucketZero : BucketAcc := ⟨0, 0, [], []⟩

def bucketAdd (b : BucketAcc) (r : SARow) : BucketAcc :=
  ⟨b.clicks + r.clicks, b.impressions + r.impressions,
    b.positions ++ [r.position], b.dates ++ [(firstKey r).getD []]⟩

/-- Resolution of `auto`: whole-day span between the range endpoints (both
UTC midnights, so `Math.ceil` of the millisecond quotient is exactly the
day difference); span > 90 → monthly, > 21 → weekly, else keep daily.
An unparsable endpoint makes both comparisons false in JS (NaN), keeping
daily. -/
def resolveGranularity (g : Granularity) (startDate endDate : Str) : Granularity :=
  match g with
  | Granularity.auto =>
    match parseDate startDate, parseDate endDate with
    | some (y1, m1, d1), some (y2, m2, d2) =>
      let days := daysFromCivil y2 m2 d2 - daysFromCivil y1 m1 d1
      if days > 90 then Granularity.monthly
      else if days > 21 then Granularity.weekly
      else Granularity.daily
    | _, _ => Granularity.daily
  | g => g

/-- The bucket key a row is grouped under (none = row skipped). -/
def rollupKeyOf (g : Granularity) (r : SARow) : Option Str :=
  (firstKey r).map (bucketKey g)

/-- The `buckets` JS `Map` after the grouping loop. -/
def rollupBuckets (g : Granularity) (rows : List SARow) : List (Str × BucketAcc) :=
  mapFold (rollupKeyOf g) (fun o r => bucketAdd (o.getD bucketZero) r) rows

/-- Turning one bucket back into a row: clicks/impressions as summed,
`ctr` recomputed from the sums (0 when the impressions sum is not
positive), `position` the plain mean of the collected positions. -/
def mkRollupRow (p : Str × BucketAcc) : SARow :=
  ⟨[p.1], p.2.clicks, p.2.impressions,
    if 0 < p.2.impressions then p.2.clicks / p.2.impressions else 0,
    if 0 < p.2.positions.length then
      p.2.positions.sum / (p.2.positions.length : ℚ) else 0⟩

/-- Model of `(a.keys?.[0] || '')` — the sort key of the final sort. -/
def sortKey (r : SARow) : Str := r.keys.headD []

/-- Final sort comparator (`localeCompare`, which on the digit/hyphen
bucket keys is plain lexicographic order). -/
def rowKeyLe (a b : SARow) : Prop := sortKey a ≤ sortKey b

instance : DecidableRel rowKeyLe :=
  fun a b => inferInstanceAs (Decidable (sortKey a ≤ sortKey b))

instance : IsTotal SARow rowKeyLe := ⟨fun a b => le_total (sortKey a) (sortKey b)⟩

instance : IsTrans SARow rowKeyLe := ⟨fun _ _ _ hab hbc => le_trans hab hbc⟩

/-- Translation of `rollupByGranularity`: resolve `auto`, return the rows
unchanged for short ranges, otherwise group into buckets, rebuild rows
and sort ascending by bucket key. -/
def rollupByGranularity (rows : List SARow) (g : Granularity)
    (startDate endDate : Str) : List SARow :=
  let actual := resolveGranularity g startDate endDate
  if actual = Granularity.daily then rows
  else List.insertionSort rowKeyLe ((rollupBuckets actual rows).map mkRollupRow)

/-- The input rows belonging to bucket `k` (spec side: well-keyed rows
whose bucket key is `k`). -/
def bucketRowsOf (g : Granularity) (k : Str) (rows : List SARow) : List SARow :=
  rows.filter (fun r => decide (rollupKeyOf g r = some k))

theorem foldl_optAdd (l : List SARow) : ∀ b : BucketAcc,
    l.foldl (fun acc r => some (bucketAdd (acc.getD bucketZero) r)) (some b) =
      some (l.foldl bucketAdd b) := by
  induction l with
  | nil => intro b; simp
  | cons r t ih => intro b; simp [ih]

theorem foldl_optAdd_none (l : List SARow) (hne : l ≠ []) :
    l.foldl (fun acc r => some (bucketAdd (acc.getD bucketZero) r)) none =
      some (l.foldl bucketAdd bucketZero) := by
  cases l with
  | nil => exact absurd rfl hne
  | cons r t =>
    simp only [List.foldl_cons, Option.getD_none]
    exact foldl_optAdd t (bucketAdd bucketZero r)

theorem foldl_bucketAdd_clicks (l : List SARow) : ∀ b : BucketAcc,
    (l.foldl bucketAdd b).clicks = b.clicks + (l.map SARow.clicks).sum := by
  induction l with
  | nil => intro b; simp
  | cons r t ih => intro b; simp [ih, bucketAdd, add_assoc]

theorem foldl_bucketAdd_impressions (l : List SARow) : ∀ b : BucketAcc,
    (l.foldl bucketAdd b).impressions =
      b.impressions + (l.map SARow.impressions).sum := by
  induction l with
  | nil => intro b; simp
  | cons r t ih => intro b; simp [ih, bucketAdd, add_assoc]

theorem foldl_bucketAdd_positions (l : List SARow) : ∀ b : BucketAcc,
    (l.foldl bucketAdd b).positions = b.positions ++ l.map SARow.position := by
  induction l with
  | nil => intro b; simp
  | cons r t ih => intro b; simp [ih, bucketAdd]

/-- The bucket stored under key `k` is exactly the aggregate of the rows
whose bucket key is `k` (and a key only appears when such a row exists). -/
theorem rollupBuckets_lookup (g : Granularity) (rows : List SARow) (k : Str)
    (b : BucketAcc) (h : alookup k (rollupBuckets g rows) = some b) :
    bucketRowsOf g k rows ≠ [] ∧
      b = (bucketRowsOf g k rows).foldl bucketAdd bucketZero := by
  have h1 := alookup_mapFold_gen (rollupKeyOf g)
    (fun o r => bucketAdd (o.getD bucketZero) r) rows [] k
  unfold rollupBuckets mapFold at h
  rw [h, show alookup k ([] : List (Str × BucketAcc)) = none from rfl] at h1
  rw [foldl_if_filter (fun r => rollupKeyOf g r = some k)
    (fun acc r => some (bucketAdd (acc.getD bucketZero) r)) rows none] at h1
  have h2 : some b = List.foldl
      (fun acc r => some (bucketAdd (acc.getD bucketZero) r)) none
      (bucketRowsOf g k rows) := h1
  rcases hfil : bucketRowsOf g k rows with - | ⟨r0, t0⟩
  · rw [hfil] at h2
    simp at h2
  · refine ⟨by simp, ?_⟩
    rw [foldl_optAdd_none _ (by simp [hfil])] at h2
    rw [← hfil]
    simpa using h2

/-- C4: for an effective weekly or monthly granularity, every output row
of the rollup is a bucket whose clicks and impressions are the sums over
that bucket's input rows, whose position is the unweighted arithmetic
mean of those rows' positions, and whose ctr is recomputed as
summed-clicks / summed-impressions (0 when the impressions sum is 0, not
a mean of input ctr values); the output is sorted ascending by bucket
key.  (Non-negativity of the input impressions — guaranteed by the data
model — makes the source's `impressions > 0` test coincide with the
claim's `sum = 0` case split.) -/
theorem rollupByGranularity_aggregates (rows : List SARow) (g : Granularity)
    (startDate endDate : Str)
    (hg : resolveGranularity g startDate endDate = Granularity.weekly ∨
      resolveGranularity g startDate endDate = Granularity.monthly)
    (hnn : ∀ r ∈ rows, 0 ≤ r.impressions) :
    (∀ r ∈ rollupByGranularity rows g startDate endDate, ∃ k,
      r.keys = [k] ∧
      bucketRowsOf (resolveGranularity g startDate endDate) k rows ≠ [] ∧
      r.clicks = ((bucketRowsOf (resolveGranularity g startDate endDate) k
        rows).map SARow.clicks).sum ∧
      r.impressions = ((bucketRowsOf (resolveGranularity g startDate endDate) k
        rows).map SARow.impressions).sum ∧
      r.position = ((bucketRowsOf (resolveGranularity g startDate endDate) k
          rows).map SARow.position).sum /
        ((bucketRowsOf (resolveGranularity g startDate endDate) k
          rows).length : ℚ) ∧
      r.ctr = (if ((bucketRowsOf (resolveGranularity g startDate endDate) k
            rows).map SARow.impressions).sum = 0 then 0
        else ((bucketRowsOf (resolveGranularity g startDate endDate) k
            rows).map SARow.clicks).sum /
          ((bucketRowsOf (resolveGranularity g startDate endDate) k
            rows).map SARow.impressions).sum)) ∧
    List.Sorted rowKeyLe (rollupByGranularity rows g startDate endDate) := by
  have hne : ¬ resolveGranularity g startDate endDate = Granularity.daily := by
    rcases hg with h | h <;> simp [h]
  unfold rollupByGranularity
  simp only [if_neg hne]
  constructor
  · intro r hr
    rw [List.mem_insertionSort] at hr
    obtain ⟨p, hp, rfl⟩ := List.mem_map.mp hr
    obtain ⟨k, b⟩ := p
    have hnd : ((rollupBuckets (resolveGranularity g startDate endDate)
        rows).map Prod.fst).Nodup :=
      mapFold_keys_nodup (rollupKeyOf (resolveGranularity g startDate endDate))
        (fun o r => bucketAdd (o.getD bucketZero) r) rows
    have hl := alookup_of_mem_nodup hnd hp
    obtain ⟨hne2, hb⟩ :=
      rollupBuckets_lookup (resolveGranularity g startDate endDate) rows k b hl
    have hcl : b.clicks = ((bucketRowsOf (resolveGranularity g startDate endDate)
        k rows).map SARow.clicks).sum := by
      rw [hb, foldl_bucketAdd_clicks]
      simp [bucketZero]
    have him : b.impressions =
        ((bucketRowsOf (resolveGranularity g startDate endDate)
          k rows).map SARow.impressions).sum := by
      rw [hb, foldl_bucketAdd_impressions]
      simp [bucketZero]
    have hps : b.positions = (bucketRowsOf (resolveGranularity g startDate endDate)
        k rows).map SARow.position := by
      rw [hb, foldl_bucketAdd_positions]
      simp [bucketZero]
    have hlen : 0 < b.positions.length := by
      rw [hps, List.length_map]
      exact List.length_pos.mpr hne2
    refine ⟨k, rfl, hne2, hcl, him, ?_, ?_⟩
    · show (if 0 < b.positions.length then
          b.positions.sum / (b.positions.length : ℚ) else 0) = _
      rw [if_pos hlen, hps, List.length_map]
    · show (if 0 < b.impressions then b.clicks / b.impressions else 0) = _
      have hsnn : 0 ≤ ((bucketRowsOf (resolveGranularity g startDate endDate)
          k rows).map SARow.impressions).sum := by
        apply List.sum_nonneg
        intro x hx
        obtain ⟨rr, hrr, rfl⟩ := List.mem_map.mp hx
        exact hnn rr (List.mem_of_mem_filter hrr)
      by_cases hS : ((bucketRowsOf (resolveGranularity g startDate endDate)
          k rows).map SARow.impressions).sum = 0
      · rw [if_pos hS, him, hS]
        simp
      · rw [if_neg hS, him, hcl]
        rw [if_pos (lt_of_le_of_ne hsnn (Ne.symm hS))]
  · exact List.sorted_insertionSort rowKeyLe _

/-- C4 witness: the aggregates hold for a concrete weekly rollup input. -/
theorem rollupByGranularity_aggregates_witness :
    List.Sorted rowKeyLe (rollupByGranularity
      [⟨["2024-01-03".data], 2, 10, 1/5, 3⟩] Granularity.weekly [] []) :=
  (rollupByGranularity_aggregates [⟨["2024-01-03".data], 2, 10, 1/5, 3⟩]
    Granularity.weekly [] [] (Or.inl rfl) (by
      intro r hr
      simp at hr
      subst hr
      norm_num)).2

/-! ## URL-prefix stripping (src/server/tools/formatters.ts) -/

/-- Model of `url.slice(p.length) || '/'`. -/
def orSlash (s : Str) : Str := if s = [] then ("/".data) else s

/-- The `for (const p of prefixes)` loop: strip the first matching
candidate, else fall through. -/
def firstStrip (url : Str) : List Str → Str
  | [] => url
  | p :: ps =>
    if isPrefixB p url then orSlash (url.drop p.length) else firstStrip url ps

/-- Model of the `replace(/\/$/, '')` call — drop one trailing slash. -/
def stripTrailingSlash (s : Str) : Str :=
  if s.getLast? = some '/' then s.dropLast else s

/-- Translation of `stripUrlPrefix(url, siteUrl)`.  A falsy (absent or
empty) `siteUrl`, or a falsy `url`, short-circuits.  The
`replace('sc-domain:', '')` of the source removes the first occurrence,
which under the `startsWith('sc-domain:')` guard is the leading one, so
it equals dropping the 10-character tag. -/
def stripUrlPrefix (url : Str) (siteUrl : Str) : Str :=
  if siteUrl = [] ∨ url = [] then url
  else if isPrefixB ("sc-domain:".data) siteUrl then
    let domain := siteUrl.drop ("sc-domain:".data).length
    firstStrip url
      ["https://".data ++ domain, "https://www.".data ++ domain,
        "http://".data ++ domain, "http://www.".data ++ domain]
  else
    let p := stripTrailingSlash siteUrl
    if isPrefixB p url then orSlash (url.drop p.length) else url

theorem isPrefixB_append_self (p t : Str) : isPrefixB p (p ++ t) = true := by
  induction p with
  | nil => simp [isPrefixB]
  | cons a as ih => simp [isPrefixB, ih]

/-- The candidate prefixes tried, in order, for a domain property
(`sc-domain:<domain>`). -/
def domainCandidates (domain : Str) : List Str :=
  ["https://".data ++ domain, "https://www.".data ++ domain,
    "http://".data ++ domain, "http://www.".data ++ domain]

/-- The strip loop returns the remainder behind the first matching
candidate: if every candidate before `c` fails to match and the URL is
`c ++ t`, the loop strips `c` and yields `t` (or "/"). -/
theorem firstStrip_first_match (url : Str) :
    ∀ (pre : List Str) (c : Str) (post : List Str) (t : Str),
    (∀ p ∈ pre, isPrefixB p url = false) → url = c ++ t →
    firstStrip url (pre ++ c :: post) = orSlash t := by
  intro pre
  induction pre with
  | nil =>
    intro c post t _ hurl
    subst hurl
    simp only [List.nil_append, firstStrip]
    rw [if_pos (isPrefixB_append_self _ _), List.drop_left]
  | cons p pre2 ih =>
    intro c post t hpre hurl
    simp only [List.cons_append, firstStrip]
    rw [if_neg (by simp [hpre p (List.mem_cons_self _ _)])]
    exact ih c post t (fun q hq => hpre q (List.mem_cons_of_mem _ hq)) hurl

/-- C9: prefix stripping leaves only the path.  For a domain property
`sc-domain:<domain>`, ANY of the four candidates `https://<domain>`,
`https://www.<domain>`, `http://<domain>`, `http://www.<domain>` is a
valid prefix to strip: whichever candidate matches first (the ones tried
before it failing) is removed and the remaining path is returned (or `/`
when nothing remains) — together with the no-match conjunct this covers
every URL, since either some candidate is the first to match or none
matches and the URL is unchanged.  For a URL-prefix property, the
property URL minus its trailing slash is the prefix: `<p>/` strips
`<p><rest>` to `<rest>` (or `/`), and a URL not starting with the
de-slashed property is unchanged.  The two spec examples, the
empty-path→`/` case, and concrete strips for all four domain candidate
forms evaluate as stated. -/
theorem stripUrlPrefix_spec :
    (∀ domain path : Str,
      stripUrlPrefix ("https://".data ++ domain ++ path)
        ("sc-domain:".data ++ domain) = orSlash path) ∧
    (∀ (domain url : Str) (pre post : List Str) (c t : Str),
      domainCandidates domain = pre ++ c :: post →
      (∀ p ∈ pre, isPrefixB p url = false) → url = c ++ t →
      stripUrlPrefix url ("sc-domain:".data ++ domain) = orSlash t) ∧
    (∀ url domain : Str,
      (∀ c ∈ domainCandidates domain, ¬ isPrefixB c url = true) →
      stripUrlPrefix url ("sc-domain:".data ++ domain) = url) ∧
    (∀ p rest : Str, p ≠ [] →
      ¬ isPrefixB ("sc-domain:".data) (p ++ "/".data) = true →
      stripUrlPrefix (p ++ rest) (p ++ "/".data) = orSlash rest) ∧
    (∀ url siteUrl : Str, url ≠ [] → siteUrl ≠ [] →
      ¬ isPrefixB ("sc-domain:".data) siteUrl = true →
      ¬ isPrefixB (stripTrailingSlash siteUrl) url = true →
      stripUrlPrefix url siteUrl = url) ∧
    stripUrlPrefix ("https://example.com/blog/post".data)
      "sc-domain:example.com".data = "/blog/post".data ∧
    stripUrlPrefix ("https://other.com/x".data)
      "sc-domain:example.com".data = "https://other.com/x".data ∧
    stripUrlPrefix ("https://example.com".data)
      "sc-domain:example.com".data = "/".data ∧
    stripUrlPrefix ("https://www.example.com/x".data)
      "sc-domain:example.com".data = "/x".data ∧
    stripUrlPrefix ("http://example.com/x".data)
      "sc-domain:example.com".data = "/x".data ∧
    stripUrlPrefix ("http://www.example.com/x".data)
      "sc-domain:example.com".data = "/x".data := by
  refine ⟨?_, ?_, ?_, ?_, ?_, by decide, by decide, by decide, by decide,
    by decide, by decide⟩
  · intro domain path
    unfold stripUrlPrefix
    rw [if_neg (by simp), if_pos (isPrefixB_append_self _ _)]
    simp only [List.drop_left]
    unfold firstStrip
    rw [if_pos (isPrefixB_append_self _ _), List.drop_left]
  · intro domain url pre post c t hc hpre hurl
    have hcne : c ≠ [] := by
      have hcmem : c ∈ domainCandidates domain := by
        rw [hc]
        exact List.mem_append_right _ (List.mem_cons_self _ _)
      simp only [domainCandidates, List.mem_cons, List.not_mem_nil,
        or_false] at hcmem
      rcases hcmem with rfl | rfl | rfl | rfl <;>
        · intro h
          exact absurd (List.append_eq_nil.mp h).1 (by decide)
    have hune : url ≠ [] := by
      rw [hurl]
      intro h
      exact hcne (List.append_eq_nil.mp h).1
    unfold stripUrlPrefix
    rw [if_neg (by simp [hune]), if_pos (isPrefixB_append_self _ _)]
    simp only [List.drop_left]
    have hfs : firstStrip url (domainCandidates domain) = orSlash t := by
      rw [hc]
      exact firstStrip_first_match url pre c post t hpre hurl
    exact hfs
  · intro url domain hnone
    unfold stripUrlPrefix
    by_cases hu : url = []
    · rw [if_pos (Or.inr hu)]
    · have h1 : ¬ isPrefixB ("https://".data ++ domain) url = true :=
        hnone _ (by simp [domainCandidates])
      have h2 : ¬ isPrefixB ("https://www.".data ++ domain) url = true :=
        hnone _ (by simp [domainCandidates])
      have h3 : ¬ isPrefixB ("http://".data ++ domain) url = true :=
        hnone _ (by simp [domainCandidates])
      have h4 : ¬ isPrefixB ("http://www.".data ++ domain) url = true :=
        hnone _ (by simp [domainCandidates])
      rw [if_neg (by simp [hu]), if_pos (isPrefixB_append_self _ _)]
      simp only [List.drop_left]
      simp only [firstStrip]
      rw [if_neg h1, if_neg h2, if_neg h3, if_neg h4]
  · intro p rest hp hnd
    unfold stripUrlPrefix
    have hcond : ¬ ((p ++ "/".data = []) ∨ (p ++ rest = [])) := by
      rintro (h | h)
      · exact absurd (List.append_eq_nil.mp h).2 (by simp)
      · exact hp (List.append_eq_nil.mp h).1
    rw [if_neg hcond, if_neg hnd]
    have hts : stripTrailingSlash (p ++ "/".data) = p := by
      unfold stripTrailingSlash
      rw [if_pos (by rw [show ("/".data : Str) = ['/'] from rfl,
        List.getLast?_concat])]
      rw [show ("/".data : Str) = ['/'] from rfl, List.dropLast_concat]
    rw [hts, if_pos (isPrefixB_append_self _ _), List.drop_left]
  · intro url siteUrl hu hs hnd hnp
    unfold stripUrlPrefix
    rw [if_neg (by simp [hu, hs]), if_neg hnd, if_neg hnp]

/-- C9 witness: the domain-property stripping applied at a concrete URL
with an empty remaining path yields ("/"). -/
theorem stripUrlPrefix_spec_witness :
    stripUrlPrefix ("https://".data ++ "example.org".data ++ [])
      ("sc-domain:".data ++ "example.org".data) = orSlash [] :=
  stripUrlPrefix_spec.1 ("example.org".data) []

/-! ## Low-CTR / high-position opportunity analysis
(src/server/tools/formatters.ts, handleOpportunityTool, full format) -/

structure Opportunity where
  query : Str
  page : Str
  clicks : ℚ
  impressions : ℚ
  ctr : ℚ
  position : ℚ
  potentialClicks : Int
deriving DecidableEq

/-- The filter of the analysis:
`impressions >= minImpressions && ctr < maxCtr &&
 position >= minPosition && position <= maxPosition`. -/
def lowCtrPred (minImpressions maxCtr minPosition maxPosition : ℚ)
    (r : SARow) : Prop :=
  minImpressions ≤ r.impressions ∧ r.ctr < maxCtr ∧
    minPosition ≤ r.position ∧ r.position ≤ maxPosition

instance (a b c d : ℚ) : DecidablePred (lowCtrPred a b c d) := fun r => by
  unfold lowCtrPred
  infer_instance

/-- One full-format opportunity object: query = first key (or ''), page =
second key (or '') with the property prefix stripped, raw clicks and
impressions, 4-decimal ctr, 1-decimal position, and
`potentialClicks = Math.round(impressions * 0.05 - clicks)` (the double
literal `0.05` is the exact rational 1/20 for the integer-valued inputs
involved). -/
def mkOpportunity (siteUrl : Str) (r : SARow) : Opportunity :=
  ⟨r.keys.getD 0 [], stripUrlPrefix (r.keys.getD 1 []) siteUrl, r.clicks,
    r.impressions, formatCtr r.ctr, formatPosition r.position,
    jsRound (r.impressions * (5 / 100) - r.clicks)⟩

/-- Descending-by-potential comparator
(`.sort((a, b) => b.potentialClicks - a.potentialClicks)`). -/
def potentialGe (a b : Opportunity) : Prop :=
  b.potentialClicks ≤ a.potentialClicks

instance : DecidableRel potentialGe :=
  fun a b => inferInstanceAs (Decidable (b.potentialClicks ≤ a.potentialClicks))

instance : IsTotal Opportunity potentialGe :=
  ⟨fun a b => (le_total b.potentialClicks a.potentialClicks).elim Or.inl Or.inr⟩

instance : IsTrans Opportunity potentialGe :=
  ⟨fun _ _ _ hab hbc => le_trans hbc hab⟩

/-- Translation of the `opportunities.lowCtrHighPos` pipeline:
filter → map → sort descending by potential → truncate to `limit`. -/
def lowCtrOpportunities (rows : List SARow) (siteUrl : Str)
    (minImpressions maxCtr minPosition maxPosition : ℚ) (limit : Nat) :
    List Opportunity :=
  (List.insertionSort potentialGe
    ((rows.filter (fun r =>
        decide (lowCtrPred minImpressions maxCtr minPosition maxPosition r))).map
      (mkOpportunity siteUrl))).take limit

/-- Model of `opportunities.reduce((sum, o) => sum + o.potentialClicks, 0)` — over
the already-truncated list. -/
def lowCtrTotalPotential (rows : List SARow) (siteUrl : Str)
    (minImpressions maxCtr minPosition maxPosition : ℚ) (limit : Nat) : Int :=
  ((lowCtrOpportunities rows siteUrl minImpressions maxCtr minPosition
    maxPosition limit).map Opportunity.potentialClicks).sum

/-- C7: every returned opportunity comes from an input row passing the
filter, carries `potentialClicks = round(impressions×0.05 − clicks)`, the
output is sorted descending by potentialClicks and truncated to `limit`
(returning every qualifying row when they fit), the reported total is the
sum over the post-truncation set, and the spec's example row
(impressions 1000, clicks 10, ctr 0.01, position 10) passes the default
filters with potentialClicks 40. -/
theorem lowCtrOpportunities_spec (rows : List SARow) (siteUrl : Str)
    (minImpressions maxCtr minPosition maxPosition : ℚ) (limit : Nat) :
    (∀ o ∈ lowCtrOpportunities rows siteUrl minImpressions maxCtr minPosition
        maxPosition limit,
      ∃ r ∈ rows, lowCtrPred minImpressions maxCtr minPosition maxPosition r ∧
        o = mkOpportunity siteUrl r ∧
        o.potentialClicks = jsRound (r.impressions * (5 / 100) - r.clicks)) ∧
    List.Sorted potentialGe (lowCtrOpportunities rows siteUrl minImpressions
      maxCtr minPosition maxPosition limit) ∧
    (lowCtrOpportunities rows siteUrl minImpressions maxCtr minPosition
      maxPosition limit).length ≤ limit ∧
    ((rows.filter (fun r =>
        decide (lowCtrPred minImpressions maxCtr minPosition maxPosition
          r))).length ≤ limit →
      ∀ r ∈ rows, lowCtrPred minImpressions maxCtr minPosition maxPosition r →
        mkOpportunity siteUrl r ∈ lowCtrOpportunities rows siteUrl minImpressions
          maxCtr minPosition maxPosition limit) ∧
    lowCtrTotalPotential rows siteUrl minImpressions maxCtr minPosition
        maxPosition limit =
      ((lowCtrOpportunities rows siteUrl minImpressions maxCtr minPosition
        maxPosition limit).map Opportunity.potentialClicks).sum ∧
    (lowCtrPred 100 (3 / 100) 4 20 ⟨[], 10, 1000, 1 / 100, 10⟩ ∧
      (mkOpportunity [] ⟨[], 10, 1000, 1 / 100, 10⟩).potentialClicks = 40) := by
  refine ⟨?_, ?_, ?_, ?_, rfl, ?_, ?_⟩
  case refine_5 =>
    refine ⟨by norm_num, by norm_num, by norm_num, by norm_num⟩
  case refine_6 =>
    show jsRound ((1000 : ℚ) * (5 / 100) - 10) = 40
    unfold jsRound
    norm_num [Int.floor_eq_iff]
  · intro o ho
    have ho2 := List.mem_of_mem_take ho
    rw [List.mem_insertionSort] at ho2
    obtain ⟨r, hr, rfl⟩ := List.mem_map.mp ho2
    refine ⟨r, List.mem_of_mem_filter hr, ?_, rfl, rfl⟩
    have := List.of_mem_filter hr
    simpa using this
  · exact (List.sorted_insertionSort potentialGe _).sublist
      (List.take_sublist _ _)
  · exact List.length_take_le _ _
  · intro hlen r hr hpred
    unfold lowCtrOpportunities
    rw [List.take_of_length_le]
    · rw [List.mem_insertionSort]
      exact List.mem_map_of_mem _ (List.mem_filter.mpr ⟨hr, by simpa using hpred⟩)
    · rw [List.length_insertionSort, List.length_map]
      exact hlen

/-- C7 witness: with no input rows the output is empty and trivially
within the limit. -/
theorem lowCtrOpportunities_spec_witness :
    (lowCtrOpportunities [] [] 100 (3 / 100) 4 20 25).length ≤ 25 :=
  (lowCtrOpportunities_spec [] [] 100 (3 / 100) 4 20 25).2.2.1

/-! ## Period comparison
(src/server/tools/searchAnalytics.ts, report.comparePeriods) -/

/-- Magnitude part of `toFixed(1)`: `n` is the value scaled by 10 and
already rounded to an integer. -/
def fix1 (n : Nat) : Str := natChars (n / 10) ++ '.' :: [digitOf (n % 10)]

/-- JS `x.toFixed(1)`: the ECMAScript algorithm emits the sign first and
then rounds the magnitude, picking the larger candidate on ties. -/
def toFixed1 (q : ℚ) : Str :=
  if q < 0 then '-' :: fix1 (Int.toNat ⌊-q * 10 + 1 / 2⌋)
  else fix1 (Int.toNat ⌊q * 10 + 1 / 2⌋)

/-- Per-period totals accumulated by the `rows.reduce(...)` call
(`ctr` pinned to 0 by the source, `position` a running sum, `count` the
row count). -/
structure PeriodTotals where
  clicks : ℚ
  impressions : ℚ
  ctr : ℚ
  position : ℚ
  count : ℚ

def computeTotals (rows : List SARow) : PeriodTotals :=
  rows.foldl
    (fun acc row =>
      ⟨acc.clicks + row.clicks, acc.impressions + row.impressions, 0,
        acc.position + row.position, acc.count + 1⟩)
    ⟨0, 0, 0, 0, 0⟩

/-- The `changes` block of `report.comparePeriods` (`none` on
`avgPosition` models the 'N/A' string of the number/string union). -/
structure PeriodChanges where
  clicks : ℚ
  clicksPercent : Str
  impressions : ℚ
  impressionsPercent : Str
  avgPosition : Option ℚ

/-- Model of `totals2.clicks ? ((t1 - t2) / t2 * 100).toFixed(1) + '%' : 'N/A'`
and the `formatPosition` delta of the mean positions. -/
def computeChanges (t1 t2 : PeriodTotals) : PeriodChanges :=
  ⟨t1.clicks - t2.clicks,
    if t2.clicks = 0 then ("N/A".data)
    else toFixed1 ((t1.clicks - t2.clicks) / t2.clicks * 100) ++ "%".data,
    t1.impressions - t2.impressions,
    if t2.impressions = 0 then ("N/A".data)
    else toFixed1 ((t1.impressions - t2.impressions) / t2.impressions * 100) ++
      "%".data,
    if t1.count = 0 ∨ t2.count = 0 then none
    else some (formatPosition (t1.position / t1.count -
      t2.position / t2.count))⟩

/-- C6 counterexample: with period-1 clicks 120 and period-2 clicks 100,
the code formats `clicksPercent` as ("20.0%") — `toFixed(1)` emits no '+'
for a positive delta — refuting the claimed ("+20.0%"). -/
theorem comparePeriods_no_plus_counterexample :
    (computeChanges (computeTotals [⟨[], 120, 0, 0, 0⟩])
        (computeTotals [⟨[], 100, 0, 0, 0⟩])).clicksPercent = "20.0%".data ∧
    ("20.0%".data : Str) ≠ "+20.0%".data := by
  constructor
  · have ht1 : computeTotals [⟨[], 120, 0, 0, 0⟩] = ⟨120, 0, 0, 0, 1⟩ := by
      simp [computeTotals]
    have ht2 : computeTotals [⟨[], 100, 0, 0, 0⟩] = ⟨100, 0, 0, 0, 1⟩ := by
      simp [computeTotals]
    rw [ht1, ht2]
    show (if (100 : ℚ) = 0 then ("N/A".data)
      else toFixed1 (((120 : ℚ) - 100) / 100 * 100) ++ "%".data) = "20.0%".data
    rw [if_neg (by norm_num),
      show (((120 : ℚ) - 100) / 100 * 100) = 20 by norm_num]
    have hf : ⌊(20 : ℚ) * 10 + 1 / 2⌋ = 200 := by norm_num [Int.floor_eq_iff]
    unfold toFixed1
    rw [if_neg (by norm_num), hf]
    decide
  · decide

theorem natCharsGo_digits (fuel : Nat) : ∀ n c, c ∈ natCharsGo fuel n →
    ∃ m, m < 10 ∧ c = digitOf m := by
  induction fuel with
  | zero => intro n c hc; simp [natCharsGo] at hc
  | succ fuel ih =>
    intro n c hc
    simp only [natCharsGo] at hc
    split at hc
    · next h =>
      simp at hc
      exact ⟨n, h, hc⟩
    · rcases List.mem_append.mp hc with hm | hm
      · exact ih _ _ hm
      · simp at hm
        exact ⟨n % 10, Nat.mod_lt _ (by norm_num), hm⟩

theorem natChars_ne_nil (n : Nat) : natChars n ≠ [] := by
  unfold natChars natCharsGo
  split <;> simp

theorem toFixed1_head_ne_plus (q : ℚ) :
    ∀ c, (toFixed1 q).head? = some c → c ≠ '+' := by
  intro c hc
  unfold toFixed1 at hc
  split at hc
  · simp at hc
    subst hc
    decide
  · unfold fix1 at hc
    rcases hn : natChars (Int.toNat ⌊q * 10 + 1 / 2⌋ / 10) with - | ⟨d, ds⟩
    · exact absurd hn (natChars_ne_nil _)
    · rw [hn] at hc
      simp at hc
      have hd : c ∈ natChars (Int.toNat ⌊q * 10 + 1 / 2⌋ / 10) := by
        rw [hn, ← hc]
        exact List.mem_cons_self _ _
      obtain ⟨m, hm, rfl⟩ := natCharsGo_digits _ _ _ hd
      interval_cases m <;> decide

theorem toFixed1_ne_nil (q : ℚ) : toFixed1 q ≠ [] := by
  unfold toFixed1 fix1
  split
  · simp
  · intro h
    exact natChars_ne_nil _ (List.append_eq_nil.mp h).1

/-- C6 (amended): whenever both periods return rows, each percent-change
field is ("N/A") exactly when the previous period's baseline sum is zero,
and otherwise equals `toFixed(1)` of the percent change followed by '%';
the formatted string never carries a '+' prefix (its first character is
'-' or a digit), so a positive delta such as 120 vs 100 renders ("20.0%"),
not ("+20.0%"). -/
theorem comparePeriods_percent_formatting (rows1 rows2 : List SARow) :
    ((computeTotals rows2).clicks = 0 →
      (computeChanges (computeTotals rows1)
        (computeTotals rows2)).clicksPercent = "N/A".data) ∧
    ((computeTotals rows2).clicks ≠ 0 →
      (computeChanges (computeTotals rows1)
          (computeTotals rows2)).clicksPercent =
        toFixed1 (((computeTotals rows1).clicks -
          (computeTotals rows2).clicks) / (computeTotals rows2).clicks * 100) ++
          "%".data) ∧
    ((computeTotals rows2).impressions = 0 →
      (computeChanges (computeTotals rows1)
        (computeTotals rows2)).impressionsPercent = "N/A".data) ∧
    ((computeTotals rows2).impressions ≠ 0 →
      (computeChanges (computeTotals rows1)
          (computeTotals rows2)).impressionsPercent =
        toFixed1 (((computeTotals rows1).impressions -
          (computeTotals rows2).impressions) /
          (computeTotals rows2).impressions * 100) ++ "%".data) ∧
    (∀ c, (computeChanges (computeTotals rows1)
        (computeTotals rows2)).clicksPercent.head? = some c → c ≠ '+') ∧
    (∀ c, (computeChanges (computeTotals rows1)
        (computeTotals rows2)).impressionsPercent.head? = some c → c ≠ '+') := by
  refine ⟨?_, ?_, ?_, ?_, ?_, ?_⟩
  · intro h
    show (if (computeTotals rows2).clicks = 0 then ("N/A".data) else _) = _
    rw [if_pos h]
  · intro h
    show (if (computeTotals rows2).clicks = 0 then ("N/A".data) else _) = _
    rw [if_neg h]
  · intro h
    show (if (computeTotals rows2).impressions = 0 then ("N/A".data) else _) = _
    rw [if_pos h]
  · intro h
    show (if (computeTotals rows2).impressions = 0 then ("N/A".data) else _) = _
    rw [if_neg h]
  · intro c hc
    by_cases h : (computeTotals rows2).clicks = 0
    · rw [show (computeChanges (computeTotals rows1)
          (computeTotals rows2)).clicksPercent =
        (if (computeTotals rows2).clicks = 0 then ("N/A".data)
          else toFixed1 (((computeTotals rows1).clicks -
            (computeTotals rows2).clicks) / (computeTotals rows2).clicks * 100)
            ++ "%".data) from rfl, if_pos h] at hc
      simp at hc
      subst hc
      decide
    · rw [show (computeChanges (computeTotals rows1)
          (computeTotals rows2)).clicksPercent =
        (if (computeTotals rows2).clicks = 0 then ("N/A".data)
          else toFixed1 (((computeTotals rows1).clicks -
            (computeTotals rows2).clicks) / (computeTotals rows2).clicks * 100)
            ++ "%".data) from rfl, if_neg h] at hc
      rcases hq : toFixed1 (((computeTotals rows1).clicks -
          (computeTotals rows2).clicks) / (computeTotals rows2).clicks * 100)
        with - | ⟨c0, cs⟩
      · exact absurd hq (toFixed1_ne_nil _)
      · rw [hq] at hc
        simp at hc
        subst hc
        exact toFixed1_head_ne_plus _ c0 (by rw [hq]; rfl)
  · intro c hc
    by_cases h : (computeTotals rows2).impressions = 0
    · rw [show (computeChanges (computeTotals rows1)
          (computeTotals rows2)).impressionsPercent =
        (if (computeTotals rows2).impressions = 0 then ("N/A".data)
          else toFixed1 (((computeTotals rows1).impressions -
            (computeTotals rows2).impressions) /
            (computeTotals rows2).impressions * 100) ++ "%".data) from rfl,
        if_pos h] at hc
      simp at hc
      subst hc
      decide
    · rw [show (computeChanges (computeTotals rows1)
          (computeTotals rows2)).impressionsPercent =
        (if (computeTotals rows2).impressions = 0 then ("N/A".data)
          else toFixed1 (((computeTotals rows1).impressions -
            (computeTotals rows2).impressions) /
            (computeTotals rows2).impressions * 100) ++ "%".data) from rfl,
        if_neg h] at hc
      rcases hq : toFixed1 (((computeTotals rows1).impressions -
          (computeTotals rows2).impressions) /
          (computeTotals rows2).impressions * 100) with - | ⟨c0, cs⟩
      · exact absurd hq (toFixed1_ne_nil _)
      · rw [hq] at hc
        simp at hc
        subst hc
        exact toFixed1_head_ne_plus _ c0 (by rw [hq]; rfl)

/-- C6 witness: a zero-click baseline period yields the ("N/A") string. -/
theorem comparePeriods_percent_formatting_witness :
    (computeChanges (computeTotals [⟨[], 120, 0, 0, 0⟩])
      (computeTotals [⟨[], 0, 0, 0, 0⟩])).clicksPercent = "N/A".data :=
  (comparePeriods_percent_formatting [⟨[], 120, 0, 0, 0⟩]
    [⟨[], 0, 0, 0, 0⟩]).1 (by simp [computeTotals])

/-! ## Cannibalization analysis
(src/server/tools/formatters.ts, handleOpportunityTool, full format) -/

structure PageEntry where
  page : Str
  clicks : ℚ
  impressions : ℚ
  ctr : ℚ
  position : ℚ
deriving DecidableEq

/-- Model of `const query = row.keys?.[0] || ''`. -/
def queryOf (r : SARow) : Str := r.keys.getD 0 []

/-- The per-row record pushed into the query's page list
(`page = row.keys?.[1] || ''`). -/
def mkPageEntry (r : SARow) : PageEntry :=
  ⟨r.keys.getD 1 [], r.clicks, r.impressions, r.ctr, r.position⟩

/-- The `queryMap` JS `Map` after the grouping loop (every row is
grouped; a missing query key groups under ''). -/
def groupByQuery (rows : List SARow) : List (Str × List PageEntry) :=
  mapFold (fun r => some (queryOf r)) (fun o r => o.getD [] ++ [mkPageEntry r])
    rows

/-- Model of `pages.sort((a, b) => a.position - b.position)`. -/
def pagePosLe (a b : PageEntry) : Prop := a.position ≤ b.position

instance : DecidableRel pagePosLe :=
  fun a b => inferInstanceAs (Decidable (a.position ≤ b.position))

instance : IsTotal PageEntry pagePosLe :=
  ⟨fun a b => le_total a.position b.position⟩

instance : IsTrans PageEntry pagePosLe :=
  ⟨fun _ _ _ hab hbc => le_trans hab hbc⟩

/-- A page as emitted in the issue (full format): stripped URL, raw
clicks/impressions, 4-decimal ctr, 1-decimal position. -/
structure FormattedPage where
  page : Str
  clicks : ℚ
  impressions : ℚ
  ctr : ℚ
  position : ℚ
deriving DecidableEq

def formatPage (siteUrl : Str) (p : PageEntry) : FormattedPage :=
  ⟨ stripUrlPrefix p.page siteUrl, p.clicks, p.impressions, formatCtr p.ctr,
    formatPosition p.position⟩

structure CannibalizationIssue where
  query : Str
  pages : List FormattedPage
  totalImpressions : ℚ
  recommendation : Str
deriving DecidableEq

def consolidateMsg (path : Str) : Str :=
  "Consider consolidating content into ".data ++ path ++
    " and redirecting other pages.".data

def competingMsg : Str :=
  ("Multiple pages competing. Consider: 1) Consolidate into one " ++
    "authoritative page, 2) Differentiate content focus, or " ++
    "3) Use canonical tags.").data

def defaultPage : PageEntry := ⟨[], 0, 0, 0, 0⟩

/-- One surviving group turned into an issue: total over the group's
pages, pages sorted ascending by position, recommendation keyed on the
best page's position being strictly below 5. -/
def mkIssue (siteUrl : Str) (q : Str) (pages : List PageEntry) :
    CannibalizationIssue :=
  let sorted := List.insertionSort pagePosLe pages
  let best := sorted.headD defaultPage
  ⟨q, sorted.map (formatPage siteUrl), (pages.map PageEntry.impressions).sum,
    if best.position < 5 then
      consolidateMsg ( stripUrlPrefix best.page siteUrl)
    else competingMsg⟩

/-- The `issues` array before sorting/truncation: groups with fewer than
2 page entries or a total below `minImpressions` are skipped. -/
def cannibalizationIssuesAll (rows : List SARow) (minImpressions : ℚ)
    (siteUrl : Str) : List CannibalizationIssue :=
  (groupByQuery rows).filterMap (fun p =>
    if p.2.length < 2 then none
    else if (p.2.map PageEntry.impressions).sum < minImpressions then none
    else some (mkIssue siteUrl p.1 p.2))

/-- Model of `issues.sort((a, b) => b.totalImpressions - a.totalImpressions)`. -/
def issueImpGe (a b : CannibalizationIssue) : Prop :=
  b.totalImpressions ≤ a.totalImpressions

instance : DecidableRel issueImpGe :=
  fun a b => inferInstanceAs (Decidable (b.totalImpressions ≤ a.totalImpressions))

instance : IsTotal CannibalizationIssue issueImpGe :=
  ⟨fun a b => (le_total b.totalImpressions a.totalImpressions).elim Or.inl Or.inr⟩

instance : IsTrans CannibalizationIssue issueImpGe :=
  ⟨fun _ _ _ hab hbc => le_trans hbc hab⟩

/-- The full `opportunities.cannibalization` pipeline: group, filter,
build issues, sort descending by total impressions, truncate. -/
def cannibalizationIssues (rows : List SARow) (minImpressions : ℚ)
    (limit : Nat) (siteUrl : Str) : List CannibalizationIssue :=
  (List.insertionSort issueImpGe
    (cannibalizationIssuesAll rows minImpressions siteUrl)).take limit

theorem foldl_optPush (f : SARow → PageEntry) (l : List SARow) :
    ∀ init : List PageEntry,
    l.foldl (fun acc r => some (acc.getD [] ++ [f r])) (some init) =
      some (init ++ l.map f) := by
  induction l with
  | nil => intro init; simp
  | cons r t ih => intro init; simp [ih]

/-- The page list stored under query `k` is exactly the pages of the rows
whose query key is `k`, in input order. -/
theorem groupByQuery_lookup (rows : List SARow) (k : Str)
    (ps : List PageEntry) (h : alookup k (groupByQuery rows) = some ps) :
    ps = (rows.filter (fun r => decide (queryOf r = k))).map mkPageEntry ∧
      ps ≠ [] := by
  have h1 := alookup_mapFold_gen (fun r => some (queryOf r))
    (fun o r => o.getD [] ++ [mkPageEntry r]) rows [] k
  unfold groupByQuery mapFold at h
  rw [h, show alookup k ([] : List (Str × List PageEntry)) = none from rfl] at h1
  rw [foldl_if_filter (fun r => (some (queryOf r) : Option Str) = some k)
    (fun acc r => some (acc.getD [] ++ [mkPageEntry r])) rows none] at h1
  have hpred : (fun r => decide ((some (queryOf r) : Option Str) = some k)) =
      fun r => decide (queryOf r = k) := by
    funext r
    rw [decide_eq_decide]
    simp
  rw [hpred] at h1
  rcases hfil : rows.filter (fun r => decide (queryOf r = k)) with - | ⟨r0, t0⟩
  · rw [hfil] at h1
    simp at h1
  · rw [hfil] at h1
    simp only [List.foldl_cons, Option.getD_none, List.nil_append] at h1
    rw [foldl_optPush] at h1
    simp only [Option.some.injEq] at h1
    constructor
    · rw [h1]
      simp
    · rw [h1]
      simp

theorem formatPosition_mono {a b : ℚ} (h : a ≤ b) :
    formatPosition a ≤ formatPosition b := by
  unfold formatPosition jsRound
  have h1 : a * 10 + 1 / 2 ≤ b * 10 + 1 / 2 := by linarith
  have h2 : (⌊a * 10 + 1 / 2⌋ : ℚ) ≤ (⌊b * 10 + 1 / 2⌋ : ℚ) := by
    exact_mod_cast Int.floor_mono h1
  exact (div_le_div_iff_of_pos_right (by norm_num)).mpr h2

/-- C8: with (query, page)-dimensioned input (key pairs distinct, as the
remote service returns them), a group is emitted iff it holds at least 2
distinct pages and its summed impressions reach `minImpressions`; emitted
issues carry the group total, the group's pages sorted ascending by
position, and a consolidate-into-best recommendation exactly when the
best position is strictly below 5 (otherwise the three-option menu);
issues are sorted descending by total impressions and truncated to
`limit` (all of them when they fit). -/
theorem cannibalization_spec (rows : List SARow) (minImpressions : ℚ)
    (limit : Nat) (siteUrl : Str)
    (hnd : (rows.map (fun r => (queryOf r, r.keys.getD 1 []))).Nodup) :
    (∀ i ∈ cannibalizationIssues rows minImpressions limit siteUrl,
      ∃ ps, alookup i.query (groupByQuery rows) = some ps ∧
        2 ≤ ps.length ∧
        (∃ p1 ∈ ps, ∃ p2 ∈ ps, p1.page ≠ p2.page) ∧
        minImpressions ≤ (ps.map PageEntry.impressions).sum ∧
        i.totalImpressions = (ps.map PageEntry.impressions).sum ∧
        i.pages = (List.insertionSort pagePosLe ps).map (formatPage siteUrl) ∧
        List.Sorted (fun a b : FormattedPage => a.position ≤ b.position)
          i.pages ∧
        (∃ best rest, List.insertionSort pagePosLe ps = best :: rest ∧
          (∀ p ∈ ps, best.position ≤ p.position) ∧
          (best.position < 5 → i.recommendation =
            consolidateMsg ( stripUrlPrefix best.page siteUrl)) ∧
          (¬ best.position < 5 → i.recommendation = competingMsg))) ∧
    (∀ k ps, alookup k (groupByQuery rows) = some ps →
      (∃ p1 ∈ ps, ∃ p2 ∈ ps, p1.page ≠ p2.page) →
      minImpressions ≤ (ps.map PageEntry.impressions).sum →
      ∃ i ∈ cannibalizationIssuesAll rows minImpressions siteUrl,
        i.query = k) ∧
    ((cannibalizationIssuesAll rows minImpressions siteUrl).length ≤ limit →
      ∀ i ∈ cannibalizationIssuesAll rows minImpressions siteUrl,
        i ∈ cannibalizationIssues rows minImpressions limit siteUrl) ∧
    List.Sorted issueImpGe
      (cannibalizationIssues rows minImpressions limit siteUrl) ∧
    (cannibalizationIssues rows minImpressions limit siteUrl).length ≤ limit := by
  refine ⟨?_, ?_, ?_, ?_, ?_⟩
  · intro i hi
    have hi2 := List.mem_of_mem_take hi
    rw [List.mem_insertionSort] at hi2
    obtain ⟨⟨q, ps⟩, hmem, hsome⟩ := List.mem_filterMap.mp hi2
    simp only at hsome
    by_cases h2 : ps.length < 2
    · rw [if_pos h2] at hsome
      exact absurd hsome (by simp)
    rw [if_neg h2] at hsome
    by_cases h3 : (ps.map PageEntry.impressions).sum < minImpressions
    · rw [if_pos h3] at hsome
      exact absurd hsome (by simp)
    rw [if_neg h3] at hsome
    obtain rfl : mkIssue siteUrl q ps = i := Option.some.inj hsome
    · 
      have hqnd : ((groupByQuery rows).map Prod.fst).Nodup :=
        mapFold_keys_nodup (fun r => some (queryOf r))
          (fun o r => o.getD [] ++ [mkPageEntry r]) rows
      have halk : alookup q (groupByQuery rows) = some ps :=
        alookup_of_mem_nodup hqnd hmem
      have hlen2 : 2 ≤ ps.length := Nat.not_lt.mp h2
      obtain ⟨hpsf, -⟩ := groupByQuery_lookup rows q ps halk
      have hdist : ∃ p1 ∈ ps, ∃ p2 ∈ ps, p1.page ≠ p2.page := by
        rcases hfil : rows.filter (fun r => decide (queryOf r = q))
          with - | ⟨a, - | ⟨b, t⟩⟩
        · rw [hpsf, hfil] at hlen2; simp at hlen2
        · rw [hpsf, hfil] at hlen2; simp at hlen2
        · have hsub : ((rows.filter (fun r => decide (queryOf r = q))).map
              (fun r => (queryOf r, r.keys.getD 1 []))).Nodup :=
            hnd.sublist (List.Sublist.map _ (List.filter_sublist _))
          rw [hfil] at hsub
          simp only [List.map_cons, List.nodup_cons, List.mem_cons] at hsub
          have hamem : a ∈ rows.filter (fun r => decide (queryOf r = q)) := by
            rw [hfil]
            exact List.mem_cons_self _ _
          have hbmem : b ∈ rows.filter (fun r => decide (queryOf r = q)) := by
            rw [hfil]
            exact List.mem_cons_of_mem _ (List.mem_cons_self _ _)
          have hqa := List.of_mem_filter hamem
          have hqb := List.of_mem_filter hbmem
          simp only [decide_eq_true_eq] at hqa hqb
          refine ⟨mkPageEntry a, ?_, mkPageEntry b, ?_, ?_⟩
          · rw [hpsf, hfil]; simp
          · rw [hpsf, hfil]; simp
          · intro hpe
            apply hsub.1
            left
            rw [hqa, hqb]
            exact congrArg (Prod.mk q) hpe
      refine ⟨ps, halk, hlen2, hdist, not_lt.mp h3, rfl, rfl, ?_, ?_⟩
      · show List.Sorted _ ((List.insertionSort pagePosLe ps).map
          (formatPage siteUrl))
        rw [List.Sorted, List.pairwise_map]
        exact (List.sorted_insertionSort pagePosLe ps).imp
          (fun hab => formatPosition_mono hab)
      · have hsne : List.insertionSort pagePosLe ps ≠ [] := by
          intro hnil
          have := List.length_insertionSort pagePosLe ps
          rw [hnil] at this
          simp at this
          omega
        rcases hs : List.insertionSort pagePosLe ps with - | ⟨best, rest⟩
        · exact absurd hs hsne
        · refine ⟨best, rest, rfl, ?_, ?_, ?_⟩
          · intro p hp
            have hp2 : p ∈ List.insertionSort pagePosLe ps := by
              rw [List.mem_insertionSort]; exact hp
            rw [hs] at hp2
            rcases List.mem_cons.mp hp2 with rfl | hp3
            · exact le_refl _
            · have := List.sorted_insertionSort pagePosLe ps
              rw [hs, List.sorted_cons] at this
              exact this.1 p hp3
          · intro hlt
            show (if (((List.insertionSort pagePosLe ps).headD
                defaultPage).position < 5) then _ else _) = _
            rw [hs]
            simp only [List.headD_cons]
            rw [if_pos hlt]
          · intro hlt
            show (if (((List.insertionSort pagePosLe ps).headD
                defaultPage).position < 5) then _ else _) = _
            rw [hs]
            simp only [List.headD_cons]
            rw [if_neg hlt]
  · intro k ps halk hdist hmin
    obtain ⟨p1, hp1, p2, hp2, hne⟩ := hdist
    have hlen2 : 2 ≤ ps.length := by
      rcases ps with - | ⟨a, - | ⟨b, t⟩⟩
      · simp at hp1
      · simp at hp1 hp2
        subst hp1; subst hp2
        exact absurd rfl hne
      · simp
    refine ⟨mkIssue siteUrl k ps, ?_, rfl⟩
    apply List.mem_filterMap.mpr
    refine ⟨(k, ps), mem_of_alookup halk, ?_⟩
    simp only
    rw [if_neg (by omega), if_neg (not_lt.mpr hmin)]
  · intro hlen i hi
    unfold cannibalizationIssues
    rw [List.take_of_length_le (by rw [List.length_insertionSort]; exact hlen)]
    rw [List.mem_insertionSort]
    exact hi
  · exact (List.sorted_insertionSort issueImpGe _).sublist
      (List.take_sublist _ _)
  · exact List.length_take_le _ _

/-- C8 witness: a concrete two-page group stays within the limit. -/
theorem cannibalization_spec_witness :
    (cannibalizationIssues
      [⟨["q".data, "a".data], 0, 30, 0, 3⟩, ⟨["q".data, "b".data], 0, 30, 0, 4⟩]
      50 25 []).length ≤ 25 :=
  (cannibalization_spec
    [⟨["q".data, "a".data], 0, 30, 0, 3⟩, ⟨["q".data, "b".data], 0, 30, 0, 4⟩]
    50 25 [] (by decide)).2.2.2.2
